import Mathlib

/-!
Verification of `generation.py` (summvis summarization decoding script)

Shallow embedding of the batch-inference script `src/generation.py`: the
post-processor `postprocess_data`, the line-delimited JSON dataset loader
`JSONDataset`, DataLoader-style batching, the command-line configuration
resolution performed at the top of `__main__`, and the output-file naming
and writing logic.  Strings are modelled as `List Char`; machine learning
calls (tokenize / generate / decode) are modelled as an abstract function
parameter, constrained only by the external-collaborator contract stated
in the specification.
-/

set_option autoImplicit false

namespace Generation

/-- Strings of the embedded program are lists of characters. -/
abbrev Str := List Char

/-! Post-processor (`postprocess_data`, generation.py lines 58-64)

The Python body is `[x.replace('<n>', ' ') for x in decoded]`.
`replNl` embeds `x.replace('<n>', ' ')`: Python `str.replace` substitutes
every non-overlapping occurrence of the pattern, scanning left to right. -/

/-- One string's post-processing: replace each left-to-right occurrence of
the three-character artifact marker `<n>` by a single space. -/
def replNl : Str → Str
  | [] => []
  | [c] => [c]
  | [c1, c2] => [c1, c2]
  | c1 :: c2 :: c3 :: rest =>
    if c1 = '<' ∧ c2 = 'n' ∧ c3 = '>' then ' ' :: replNl rest
    else c1 :: replNl (c2 :: c3 :: rest)

/-- `postprocess_data` from the source: elementwise marker replacement. -/
def postprocess_data (decoded : List Str) : List Str :=
  decoded.map replNl

/-- `markerFree s` holds when `s` has no occurrence of the marker `<n>`. -/
def markerFree : Str → Bool
  | [] => true
  | [_] => true
  | [_, _] => true
  | c1 :: c2 :: c3 :: rest =>
    if c1 = '<' ∧ c2 = 'n' ∧ c3 = '>' then false
    else markerFree (c2 :: c3 :: rest)

/-- The marker splitter: cut the string at every left-to-right occurrence
of `<n>`, returning the list of fragments between occurrences.  This is the
spec-side reading of "replaces every occurrence of the artifact marker":
in Python, replacing a pattern equals splitting on the pattern and joining
the fragments with the replacement. -/
def splitMarker : Str → List Str
  | [] => [[]]
  | [c] => [[c]]
  | [c1, c2] => [[c1, c2]]
  | c1 :: c2 :: c3 :: rest =>
    if c1 = '<' ∧ c2 = 'n' ∧ c3 = '>' then [] :: splitMarker rest
    else
      match splitMarker (c2 :: c3 :: rest) with
      | [] => [[c1]]
      | h :: t => (c1 :: h) :: t

/-- Join a list of fragments with a single space between consecutive
fragments (the replacement side of the split-and-join reading). -/
def joinSp : List Str → Str
  | [] => []
  | [s] => s
  | s :: s2 :: rest => s ++ ' ' :: joinSp (s2 :: rest)

/-- `hasMarker s` states that the string `s` contains an occurrence of the
three-character artifact marker `<n>`. -/
def hasMarker (s : Str) : Prop :=
  ∃ u v, s = u ++ '<' :: 'n' :: '>' :: v

/-! Batching (generation.py line 92)

`torch.utils.data.DataLoader(dataset, batch_size=BATCH_SIZE)` with default
arguments: no shuffling, `drop_last=False`.

Modelled from the spec: the DataLoader implementation itself is external
library code absent from `src/`; the spec's Batch Iterator contract (4.3)
pins its behaviour — consecutive fixed-size groups in original order, the
final group possibly smaller, nothing dropped. -/

/-- Partition a list into consecutive batches of size `B` (the final batch
may be shorter).  For `B = 0` this behaves like `B = 1`; the program only
uses `B = BATCH_SIZE = 8`. -/
def chunks {α : Type} (B : Nat) : List α → List (List α)
  | [] => []
  | x :: xs => (x :: xs.take (B - 1)) :: chunks B (xs.drop (B - 1))
termination_by l => l.length
decreasing_by
  simp only [List.length_cons, List.length_drop]
  omega

/-- `BATCH_SIZE` from the source (generation.py line 24). -/
def BATCH_SIZE : Nat := 8

/-! Dataset records and the inference loop (generation.py lines 99-106)

The loop consumes only the `"document"` field of each record (line 102:
`raw_data["document"]`), so a record entering the loop is modelled by its
document string.  Tokenization, generation and decoding are owned by the
external pretrained-model library; the loop body composes them into one
batch-level function `infer : List Str → List Str` (documents in, decoded
summaries out), left abstract here. -/

/-- A dataset record as consumed by the inference loop: the loop reads
exactly the `"document"` field. -/
structure Record where
  document : Str
deriving DecidableEq

/-- The main loop of `__main__` (lines 101-106): iterate over the batches
produced by the DataLoader; for each batch run the external model on the
batch's documents, post-process the decoded strings, and emit them in
order.  The returned list is the sequence of lines written to the output
file. -/
def runPipeline (infer : List Str → List Str) (records : List Record) : List Str :=
  ((chunks BATCH_SIZE records).map
    (fun batch => postprocess_data (infer (batch.map Record.document)))).flatten

/-- The output file's final content.  `open(filename, 'w')` truncates any
pre-existing content (the `previous` argument is discarded), and the loop
writes `example + '\n'` for each produced line (line 106). -/
def writeOut (previous : Str) (outLines : List Str) : Str :=
  let _ := previous
  (outLines.map (fun l => l ++ ['\n'])).flatten

/-! Dataset loading (`JSONDataset`, generation.py lines 44-55)

`self.data = [json.loads(line) for line in fd]`: each line of the file is
parsed as an independent JSON value; the first parse failure aborts the
whole comprehension (an uncaught exception).  The JSON parser itself is
the external `json` library, so it is a parameter; the loader never
inspects the parsed values. -/

/-- The `JSONDataset` constructor body: parse each line of the file in
order with `parse`; the first failing line makes the whole load fail with
that line's error. -/
def JSONDataset_load {J : Type} (parse : Str → Except Str J) :
    List Str → Except Str (List J)
  | [] => .ok []
  | line :: rest =>
    match parse line with
    | .error e => .error e
    | .ok v =>
      match JSONDataset_load parse rest with
      | .error e => .error e
      | .ok vs => .ok (v :: vs)

/-! Configuration resolution and output naming (`__main__`, lines 67-97) -/

/-- The fixed alias table `MODEL_CHECKPOINTS` (generation.py lines 34-41). -/
def MODEL_CHECKPOINTS : List (Str × Str) :=
  [("bart-xsum".toList, "facebook/bart-large-xsum".toList),
   ("bart-cnndm".toList, "facebook/bart-large-cnn".toList),
   ("pegasus-xsum".toList, "google/pegasus-xsum".toList),
   ("pegasus-cnndm".toList, "google/pegasus-cnn_dailymail".toList),
   ("pegasus-newsroom".toList, "google/pegasus-newsroom".toList),
   ("pegasus-multinews".toList, "google/pegasus-multi_news".toList)]

/-- Python truthiness of an optional string argument: `argparse` leaves an
absent flag as `None`, and an empty string is also falsy. -/
def truthy : Option Str → Bool
  | none => false
  | some s => !s.isEmpty

/-- The configuration errors raised before any I/O: `ValueError` at lines
74-78, and the uncaught `KeyError` from the alias lookup at line 82. -/
inductive ConfigError where
  | modelRequired : ConfigError
  | bothGiven : ConfigError
  | unknownAlias : Str → ConfigError
deriving DecidableEq

/-- `'/'` becomes `'-'`: one character of
`model_name_or_path.replace("/", "-")` (line 86). -/
def slashDash (c : Char) : Char :=
  if c = '/' then '-' else c

/-- Lines 74-86 of `__main__`: validate the mutual-exclusion constraint,
then resolve `(model_name_or_path, file_model_name)` from the alias table
or from the explicit identifier. -/
def mainConfig (model mnop : Option Str) :
    Except ConfigError (Str × Str) :=
  if !(truthy model || truthy mnop) then .error .modelRequired
  else if truthy model && truthy mnop then .error .bothGiven
  else if truthy model then
    let aliasArg := model.getD []
    match MODEL_CHECKPOINTS.lookup aliasArg with
    | some ckpt => .ok (ckpt, aliasArg)
    | none => .error (.unknownAlias aliasArg)
  else
    let p := mnop.getD []
    .ok (p, p.map slashDash)

/-- `os.path.basename`: the part of the path after the last `'/'`. -/
def basename (p : Str) : Str :=
  (p.reverse.takeWhile (fun c => c ≠ '/')).reverse

/-- The root part of `os.path.splitext` on a path without separators: drop
the suffix starting at the last `'.'`, unless every character before that
dot is itself a dot (leading dots never start an extension). -/
def dropExt (s : Str) : Str :=
  let rootRev := (s.reverse.dropWhile (fun c => c ≠ '.')).drop 1
  if rootRev.any (fun c => c ≠ '.') then rootRev.reverse else s

/-- Lines 95-96: `file_dataset_name` and the output filename
`f'{file_model_name}.{file_dataset_name}.predictions'`. -/
def outputFilename (file_model_name data_path : Str) : Str :=
  file_model_name ++ ['.'] ++ dropExt (basename data_path) ++ ".predictions".toList

/-- Externally observable stages of a run, in program order: a
configuration failure, the model/tokenizer load (line 87-88), the dataset
file read (line 90), the output file write (lines 97-106). -/
inductive Event where
  | configFail : ConfigError → Event
  | modelLoad : Str → Event
  | fileRead : Str → Event
  | fileWrite : Str → Event
deriving DecidableEq

/-- The ordered sequence of observable stages of `__main__`: argument
validation and alias resolution happen before the model is loaded, the
model load precedes the dataset read, and the output file of the computed
name is written last.  A configuration error stops the run with no other
event. -/
def mainEvents (model mnop : Option Str) (data_path : Str) : List Event :=
  match mainConfig model mnop with
  | .error e => [.configFail e]
  | .ok (ckpt, label) =>
    [.modelLoad ckpt, .fileRead data_path,
     .fileWrite (outputFilename label data_path)]

/-! Lemmas about the post-processor. -/

lemma splitMarker_ne_nil (s : Str) : splitMarker s ≠ [] := by
  match s with
  | [] => simp [splitMarker]
  | [c] => simp [splitMarker]
  | [c1, c2] => simp [splitMarker]
  | c1 :: c2 :: c3 :: rest =>
    by_cases h : c1 = '<' ∧ c2 = 'n' ∧ c3 = '>'
    · simp [splitMarker, h]
    · rcases e : splitMarker (c2 :: c3 :: rest) with _ | ⟨h', t'⟩ <;>
        simp [splitMarker, h, e]

lemma joinSp_cons_cons (c : Char) (h : Str) (t : List Str) :
    joinSp ((c :: h) :: t) = c :: joinSp (h :: t) := by
  cases t with
  | nil => simp [joinSp]
  | cons t1 t2 => simp [joinSp]

lemma replNl_eq_joinSp (s : Str) : replNl s = joinSp (splitMarker s) := by
  induction s using replNl.induct with
  | case1 => simp [replNl, splitMarker, joinSp]
  | case2 c => simp [replNl, splitMarker, joinSp]
  | case3 c1 c2 => simp [replNl, splitMarker, joinSp]
  | case4 c1 c2 c3 rest h ih =>
    obtain ⟨h', t', e⟩ := List.exists_cons_of_ne_nil (splitMarker_ne_nil rest)
    simp only [replNl, splitMarker, h, if_pos, ih, e]
    simp [joinSp]
  | case5 c1 c2 c3 rest h ih =>
    obtain ⟨h', t', e⟩ :=
      List.exists_cons_of_ne_nil (splitMarker_ne_nil (c2 :: c3 :: rest))
    simp only [replNl, splitMarker, h, if_neg, not_false_iff, ih, e]
    simp [joinSp_cons_cons]

lemma markerFree_cons1 (a : Char) (l : Str) (ha : a ≠ '<') :
    markerFree (a :: l) = markerFree l := by
  match l with
  | [] => simp [markerFree]
  | [b] => simp [markerFree]
  | b :: c :: l' => simp [markerFree, ha]

lemma markerFree_cons2 (a b : Char) (l : Str) (hb : b ≠ 'n') :
    markerFree (a :: b :: l) = markerFree (b :: l) := by
  match l with
  | [] => simp [markerFree]
  | c :: l' => simp [markerFree, hb]

lemma markerFree_cons3 (a b c : Char) (l : Str) (hc : c ≠ '>') :
    markerFree (a :: b :: c :: l) = markerFree (b :: c :: l) := by
  simp [markerFree, hc]

lemma replNl_head (c : Char) (r : Str) :
    (∃ l, replNl (c :: r) = c :: l) ∨ ∃ l, replNl (c :: r) = ' ' :: l := by
  match r with
  | [] => exact Or.inl ⟨[], by simp [replNl]⟩
  | [x] => exact Or.inl ⟨[x], by simp [replNl]⟩
  | x :: y :: r' =>
    by_cases h : c = '<' ∧ x = 'n' ∧ y = '>'
    · exact Or.inr ⟨replNl r', by simp [replNl, h]⟩
    · exact Or.inl ⟨replNl (x :: y :: r'), by simp [replNl, h]⟩

lemma markerFree_replNl (s : Str) : markerFree (replNl s) = true := by
  induction s using replNl.induct with
  | case1 => simp [replNl, markerFree]
  | case2 c => simp [replNl, markerFree]
  | case3 c1 c2 => simp [replNl, markerFree]
  | case4 c1 c2 c3 rest h ih =>
    obtain ⟨h1, h2, h3⟩ := h
    subst h1; subst h2; subst h3
    rw [show replNl ('<' :: 'n' :: '>' :: rest) = ' ' :: replNl rest from by
      simp [replNl]]
    rw [markerFree_cons1 ' ' _ (by decide)]
    exact ih
  | case5 c1 c2 c3 rest h ih =>
    simp only [replNl, h, if_neg, not_false_iff]
    by_cases h1 : c1 = '<'
    · subst h1
      by_cases h2 : c2 = 'n'
      · subst h2
        have h3 : c3 ≠ '>' := fun hh => h ⟨rfl, rfl, hh⟩
        have e : replNl ('n' :: c3 :: rest) = 'n' :: replNl (c3 :: rest) := by
          match rest with
          | [] => simp [replNl]
          | d :: r' => simp [replNl]
        rw [e] at ih ⊢
        rcases replNl_head c3 rest with ⟨l, hl⟩ | ⟨l, hl⟩
        · rw [hl] at ih ⊢
          rw [markerFree_cons3 _ _ _ _ h3]
          exact ih
        · rw [hl] at ih ⊢
          rw [markerFree_cons3 _ _ _ _ (by decide)]
          exact ih
      · rcases replNl_head c2 (c3 :: rest) with ⟨l, hl⟩ | ⟨l, hl⟩
        · rw [hl] at ih ⊢
          rw [markerFree_cons2 _ _ _ h2]
          exact ih
        · rw [hl] at ih ⊢
          rw [markerFree_cons2 _ _ _ (by decide)]
          exact ih
    · rw [markerFree_cons1 _ _ h1]
      exact ih

lemma replNl_of_markerFree (s : Str) (hs : markerFree s = true) :
    replNl s = s := by
  induction s using replNl.induct with
  | case1 => simp [replNl]
  | case2 c => simp [replNl]
  | case3 c1 c2 => simp [replNl]
  | case4 c1 c2 c3 rest h ih =>
    exfalso
    obtain ⟨h1, h2, h3⟩ := h
    subst h1; subst h2; subst h3
    simp [markerFree] at hs
  | case5 c1 c2 c3 rest h ih =>
    have hs' : markerFree (c2 :: c3 :: rest) = true := by
      simpa [markerFree, h] using hs
    simp [replNl, h, ih hs']

lemma replNl_idem (s : Str) : replNl (replNl s) = replNl s :=
  replNl_of_markerFree _ (markerFree_replNl s)

lemma markerFree_iff (s : Str) : markerFree s = true ↔ ¬ hasMarker s := by
  induction s using markerFree.induct with
  | case1 =>
    simp only [markerFree, true_iff]
    rintro ⟨u, v, h⟩
    have := congrArg List.length h
    simp at this
    omega
  | case2 c =>
    simp only [markerFree, true_iff]
    rintro ⟨u, v, h⟩
    have := congrArg List.length h
    simp at this
    omega
  | case3 c1 c2 =>
    simp only [markerFree, true_iff]
    rintro ⟨u, v, h⟩
    have := congrArg List.length h
    simp at this
    omega
  | case4 c1 c2 c3 rest h =>
    obtain ⟨h1, h2, h3⟩ := h
    subst h1; subst h2; subst h3
    rw [show markerFree ('<' :: 'n' :: '>' :: rest) = false from by
      simp [markerFree]]
    simp only [Bool.false_eq_true, false_iff, not_not]
    exact ⟨[], rest, rfl⟩
  | case5 c1 c2 c3 rest h ih =>
    rw [show markerFree (c1 :: c2 :: c3 :: rest) = markerFree (c2 :: c3 :: rest)
      from by simp [markerFree, h]]
    rw [ih]
    constructor
    · intro h1
      rintro ⟨u, v, hu⟩
      match u with
      | [] =>
        simp only [List.nil_append, List.cons.injEq] at hu
        exact h ⟨hu.1, hu.2.1, hu.2.2.1⟩
      | a :: u' =>
        simp only [List.cons_append, List.cons.injEq] at hu
        exact h1 ⟨u', v, hu.2⟩
    · intro h1
      rintro ⟨u, v, hu⟩
      exact h1 ⟨c1 :: u, v, by simp [hu]⟩

/-! Lemmas about batching. -/

lemma chunks_nil_iff {α : Type} (B : Nat) (l : List α) :
    chunks B l = [] ↔ l = [] := by
  cases l <;> simp [chunks]

lemma chunks_flatten {α : Type} (B : Nat) (l : List α) :
    (chunks B l).flatten = l := by
  induction l using chunks.induct B with
  | case1 => simp [chunks]
  | case2 x xs ih => simp [chunks, ih, List.take_append_drop]

lemma chunks_length {α : Type} (B : Nat) (l : List α) (hB : 1 ≤ B) :
    (chunks B l).length = (l.length + B - 1) / B := by
  induction l using chunks.induct B with
  | case1 => simp [chunks, Nat.div_eq_of_lt (by omega : B - 1 < B)]
  | case2 x xs ih =>
    simp only [chunks, List.length_cons, List.length_drop] at ih ⊢
    rw [ih]
    rw [show xs.length + 1 + B - 1 = xs.length + B from by omega,
      Nat.add_div_right _ (by omega : 0 < B)]
    congr 1
    rcases le_or_lt (B - 1) xs.length with hle | hlt
    · rw [show xs.length - (B - 1) + B - 1 = xs.length from by omega]
    · rw [Nat.div_eq_of_lt (by omega : xs.length < B),
        Nat.div_eq_of_lt (by omega : xs.length - (B - 1) + B - 1 < B)]

lemma chunks_dropLast {α : Type} (B : Nat) (l : List α) (hB : 1 ≤ B) :
    ∀ c ∈ (chunks B l).dropLast, c.length = B := by
  induction l using chunks.induct B with
  | case1 => simp [chunks]
  | case2 x xs ih =>
    by_cases hr : xs.drop (B - 1) = []
    · simp [chunks, hr]
    · have hr' : chunks B (xs.drop (B - 1)) ≠ [] := by
        simpa [chunks_nil_iff] using hr
      intro c hc
      simp only [chunks] at hc
      rw [List.dropLast_cons_of_ne_nil hr'] at hc
      rcases List.mem_cons.mp hc with rfl | hc'
      · have hlen : B - 1 < xs.length := by
          by_contra hle
          exact hr (List.drop_eq_nil_of_le (by omega))
        simp only [List.length_cons, List.length_take]
        omega
      · exact ih c hc'

lemma getLast?_cons_of_ne_nil {α : Type} (a : α) (l : List α) (h : l ≠ []) :
    (a :: l).getLast? = l.getLast? := by
  cases l with
  | nil => exact absurd rfl h
  | cons b t => simp [List.getLast?_cons_cons]

lemma chunks_getLast {α : Type} (B : Nat) (l : List α) (hB : 1 ≤ B) :
    l.length % B ≠ 0 →
    ∀ c, (chunks B l).getLast? = some c → c.length = l.length % B := by
  induction l using chunks.induct B with
  | case1 =>
    intro hmod
    simp at hmod
  | case2 x xs ih =>
    intro hmod c hc
    simp only [List.length_cons] at hmod ⊢
    by_cases hr : xs.drop (B - 1) = []
    · have hxs : xs.length ≤ B - 1 := by
        by_contra hgt
        rw [List.drop_eq_nil_iff] at hr
        omega
      have hNB : xs.length + 1 < B := by
        rcases Nat.lt_or_ge (xs.length + 1) B with h1 | h1
        · exact h1
        · exfalso
          have hEq : xs.length + 1 = B := by omega
          rw [hEq, Nat.mod_self] at hmod
          exact hmod rfl
      have hc' : c = x :: xs.take (B - 1) := by
        simp [chunks, hr] at hc
        exact hc.symm
      rw [hc', Nat.mod_eq_of_lt hNB]
      simp only [List.length_cons, List.length_take]
      omega
    · have hr' : chunks B (xs.drop (B - 1)) ≠ [] := by
        simpa [chunks_nil_iff] using hr
      have hlen : B - 1 < xs.length := by
        by_contra hle
        rw [List.drop_eq_nil_iff] at hr
        · exact hr (by omega)
      have hge : B ≤ xs.length + 1 := by omega
      have hsub : (xs.length + 1) % B = (xs.length + 1 - B) % B :=
        Nat.mod_eq_sub_mod hge
      have hdlen : (xs.drop (B - 1)).length = xs.length + 1 - B := by
        rw [List.length_drop]
        omega
      simp only [chunks] at hc
      rw [getLast?_cons_of_ne_nil _ _ hr'] at hc
      have hmod' : (xs.drop (B - 1)).length % B ≠ 0 := by
        rw [hdlen, ← hsub]
        exact hmod
      have hfin := ih hmod' c hc
      rw [hdlen, ← hsub] at hfin
      exact hfin

/-- Claim C2: for every batch size `B ≥ 1` and record sequence `l` of
length `N`, batching yields `⌈N/B⌉` batches (here `(N + B - 1) / B`, the
natural-number ceiling of `N/B`) in original order: every batch except
possibly the last has size exactly `B`, the last batch has size `N mod B`
whenever `N mod B` is nonzero, and concatenating all batches in order
reconstructs the original sequence exactly. -/
theorem C2_batching_roundtrip :
    ∀ (α : Type) (B : Nat) (l : List α), 1 ≤ B →
      (chunks B l).length = (l.length + B - 1) / B
      ∧ (∀ c ∈ (chunks B l).dropLast, c.length = B)
      ∧ (l.length % B ≠ 0 →
          ∀ c, (chunks B l).getLast? = some c → c.length = l.length % B)
      ∧ (chunks B l).flatten = l := by
  intro α B l hB
  exact ⟨chunks_length B l hB, chunks_dropLast B l hB,
    chunks_getLast B l hB, chunks_flatten B l⟩

/-- Witness for C2: batch size 3 over a 7-element sequence. -/
theorem C2_witness :
    1 ≤ 3
    ∧ ((chunks 3 [0, 1, 2, 3, 4, 5, 6]).length = (7 + 3 - 1) / 3
      ∧ (∀ c ∈ (chunks 3 [0, 1, 2, 3, 4, 5, 6]).dropLast, c.length = 3)
      ∧ (7 % 3 ≠ 0 →
          ∀ c, (chunks 3 [0, 1, 2, 3, 4, 5, 6]).getLast? = some c →
            c.length = 7 % 3)
      ∧ (chunks 3 [0, 1, 2, 3, 4, 5, 6]).flatten = [0, 1, 2, 3, 4, 5, 6]) :=
  ⟨by decide, C2_batching_roundtrip Nat 3 [0, 1, 2, 3, 4, 5, 6] (by decide)⟩

/-- Claim C1: for every input dataset of records carrying a document field,
the program writes exactly one output line per input record, in the order
of the input records.  The external inference call is abstract: the first
conjunct assumes only the collaborator contract that the model returns one
decoded summary per batch element; the second instantiates it with an
arbitrary per-document model `f` and shows the output is exactly the
in-order image of the records. -/
theorem C1_output_lines_match_records :
    ∀ records : List Record,
      (∀ infer : List Str → List Str,
        (∀ b, (infer b).length = b.length) →
        (runPipeline infer records).length = records.length)
      ∧ ∀ f : Str → Str,
          runPipeline (fun b => b.map f) records
            = records.map (fun r => replNl (f r.document)) := by
  intro records
  constructor
  · intro infer hinfer
    have hbatch : ∀ batch : List Record,
        (postprocess_data (infer (batch.map Record.document))).length
          = batch.length := by
      intro batch
      simp [postprocess_data, hinfer]
    calc (runPipeline infer records).length
        = ((chunks BATCH_SIZE records).map
            (fun batch =>
              (postprocess_data (infer (batch.map Record.document))).length)).sum := by
          simp only [runPipeline, List.length_flatten, List.map_map]
          rfl
      _ = ((chunks BATCH_SIZE records).map List.length).sum := by
          rw [List.map_congr_left (fun b _ => hbatch b)]
      _ = (chunks BATCH_SIZE records).flatten.length :=
          (List.length_flatten _).symm
      _ = records.length := by rw [chunks_flatten]
  · intro f
    conv_rhs => rw [← chunks_flatten BATCH_SIZE records]
    rw [List.map_flatten]
    simp only [runPipeline, postprocess_data, List.map_map]
    rfl

/-- Witness for C1: identity inference over concrete records. -/
theorem C1_witness :
    (runPipeline (fun b => b)
        ([⟨"a".toList⟩, ⟨"b".toList⟩] : List Record)).length = 2
    ∧ runPipeline (fun b => b.map (fun s => s))
        ([⟨"a".toList⟩] : List Record)
        = ([⟨"a".toList⟩] : List Record).map
            (fun r => replNl ((fun s : Str => s) r.document)) := by
  constructor
  · exact ((C1_output_lines_match_records [⟨"a".toList⟩, ⟨"b".toList⟩]).1
      (fun b => b) (fun b => rfl)).trans rfl
  · exact (C1_output_lines_match_records [⟨"a".toList⟩]).2 (fun s => s)

/-- Claim C10: for a dataset file with zero lines, loading succeeds with an
empty record sequence, the batch loop runs zero iterations so zero output
lines are produced, and the output file of the computed name is still
opened for writing, so its final content is empty regardless of any
pre-existing content. -/
theorem C10_empty_dataset :
    (∀ (J : Type) (parse : Str → Except Str J),
      JSONDataset_load parse [] = .ok [])
    ∧ chunks BATCH_SIZE ([] : List Record) = []
    ∧ (∀ infer : List Str → List Str, runPipeline infer [] = [])
    ∧ (∀ previous : Str, writeOut previous [] = [])
    ∧ (∀ (model mnop : Option Str) (data_path ckpt label : Str),
        mainConfig model mnop = .ok (ckpt, label) →
        Event.fileWrite (outputFilename label data_path)
          ∈ mainEvents model mnop data_path) := by
  refine ⟨fun J parse => rfl, by simp [chunks], ?_, fun previous => rfl, ?_⟩
  · intro infer
    simp [runPipeline, chunks]
  · intro model mnop data_path ckpt label h
    simp [mainEvents, h]

/-- Witness for C10: explicit identifier configuration, empty dataset. -/
theorem C10_witness :
    Event.fileWrite (outputFilename ("m".toList) ("d.jsonl".toList))
      ∈ mainEvents none (some ("m".toList)) ("d.jsonl".toList) := by
  exact C10_empty_dataset.2.2.2.2 none (some ("m".toList)) ("d.jsonl".toList)
    ("m".toList) ("m".toList) rfl

/-- Claim C3: for every decoded string, the post-processor returns the
string with every occurrence of the artifact marker `<n>` replaced by a
single space and all other content unchanged — formalised as: each string
is cut at its marker occurrences and the fragments are rejoined with
single spaces; in particular post-processing `"Hello<n>world"` yields
`"Hello world"`.  The post-processor is a pure Lean function, hence
deterministic and free of side effects. -/
theorem C3_postprocess_replaces_marker_with_space :
    (∀ decoded : List Str,
      postprocess_data decoded
        = decoded.map (fun s => joinSp (splitMarker s)))
    ∧ postprocess_data ["Hello<n>world".toList] = ["Hello world".toList] := by
  constructor
  · intro decoded
    simp only [postprocess_data]
    exact List.map_congr_left fun a _ => replNl_eq_joinSp a
  · decide

/-- Claim C4: post-processing is idempotent — applying the post-processor
twice yields the same result as applying it once, for every list of
strings with zero or more artifact markers. -/
theorem C4_postprocess_idempotent :
    ∀ decoded : List Str,
      postprocess_data (postprocess_data decoded) = postprocess_data decoded := by
  intro decoded
  simp only [postprocess_data, List.map_map]
  exact List.map_congr_left fun a _ => replNl_idem a

/-- Claim C9: the post-processor is an elementwise map — the output list
has the same length as the input, element `i` of the output is the
post-processing of input element `i` alone — and it is the identity on
every string containing no occurrence of `<n>`. -/
theorem C9_postprocess_elementwise_map :
    ∀ decoded : List Str,
      (postprocess_data decoded).length = decoded.length
      ∧ (∀ i (h : i < (postprocess_data decoded).length)
           (h' : i < decoded.length),
          (postprocess_data decoded).get ⟨i, h⟩
            = replNl (decoded.get ⟨i, h'⟩))
      ∧ ∀ s : Str, ¬ hasMarker s → replNl s = s := by
  intro decoded
  refine ⟨by simp [postprocess_data], ?_, ?_⟩
  · intro i h h'
    simp [postprocess_data]
  · intro s hs
    exact replNl_of_markerFree s ((markerFree_iff s).mpr hs)

/-- Claim C6: the dataset loader parses each line as an independent JSON
value and returns the records in file order; the load succeeds exactly
when every line parses (a single bad line fails the whole load, with no
skip-and-continue), and success depends only on the parser — the loader
never inspects the parsed values, so no document field is validated at
load time. -/
theorem C6_dataset_loader :
    ∀ (J : Type) (parse : Str → Except Str J) (lines : List Str),
      ((∃ vs, JSONDataset_load parse lines = .ok vs)
        ↔ ∀ line ∈ lines, ∃ v, parse line = .ok v)
      ∧ ∀ vs, JSONDataset_load parse lines = .ok vs →
          vs.map (Except.ok : J → Except Str J) = lines.map parse := by
  intro J parse lines
  induction lines with
  | nil =>
    constructor
    · constructor
      · intro _ line hline
        exact absurd hline (List.not_mem_nil line)
      · intro _
        exact ⟨[], rfl⟩
    · intro vs h
      simp only [JSONDataset_load, Except.ok.injEq] at h
      subst h
      rfl
  | cons line rest ih =>
    rcases hp : parse line with e | v
    · constructor
      · constructor
        · rintro ⟨vs, hvs⟩
          simp [JSONDataset_load, hp] at hvs
        · intro hall
          obtain ⟨v, hv⟩ := hall line (List.mem_cons_self line rest)
          rw [hp] at hv
          exact Except.noConfusion hv
      · intro vs hvs
        simp [JSONDataset_load, hp] at hvs
    · rcases hr : JSONDataset_load parse rest with e2 | vs2
      · have hnall : ¬ ∀ l ∈ rest, ∃ w, parse l = .ok w := by
          intro hall
          obtain ⟨vs, hvs⟩ := ih.1.mpr hall
          rw [hr] at hvs
          exact Except.noConfusion hvs
        constructor
        · constructor
          · rintro ⟨vs, hvs⟩
            simp [JSONDataset_load, hp, hr] at hvs
          · intro hall
            exact absurd (fun l hl => hall l (List.mem_cons_of_mem line hl)) hnall
        · intro vs hvs
          simp [JSONDataset_load, hp, hr] at hvs
      · constructor
        · constructor
          · rintro ⟨vs, hvs⟩ l hl
            rcases List.mem_cons.mp hl with rfl | hl'
            · exact ⟨v, hp⟩
            · exact ih.1.mp ⟨vs2, hr⟩ l hl'
          · intro _
            refine ⟨v :: vs2, ?_⟩
            simp [JSONDataset_load, hp, hr]
        · intro vs hvs
          simp only [JSONDataset_load, hp, hr, Except.ok.injEq] at hvs
          subst hvs
          simp only [List.map_cons, hp]
          rw [ih.2 vs2 hr]

/-- Witness for C6: a two-line file parsed by a length parser. -/
theorem C6_witness :
    (∃ vs, JSONDataset_load (fun s => Except.ok s.length)
        ["ab".toList, "c".toList] = .ok vs)
    ∧ ([2, 1].map (Except.ok : Nat → Except Str Nat)
        = ["ab".toList, "c".toList].map (fun s => Except.ok s.length)) := by
  have h := C6_dataset_loader Nat (fun s => Except.ok s.length)
    ["ab".toList, "c".toList]
  refine ⟨h.1.mpr ?_, h.2 [2, 1] rfl⟩
  intro line hline
  exact ⟨line.length, rfl⟩

/-- Counterexample to claim C5 as stated: both flags are supplied, but
`--model` carries the empty string.  Python truthiness treats the empty
string as falsy, so neither `ValueError` fires and the run proceeds to
load the model and read the data file instead of failing. -/
theorem C5_counterexample :
    mainEvents (some []) (some ("x".toList)) ("d.jsonl".toList)
      = [Event.modelLoad ("x".toList), Event.fileRead ("d.jsonl".toList),
         Event.fileWrite ("x.d.predictions".toList)] := by
  rfl

/-- Claim C5, amended: if both flags are supplied with non-empty values,
or neither flag is supplied, the run stops with a `ValueError` raised by
the argument validation — the event trace is a single configuration
failure, so no file I/O and no model loading happens; both cases fail at
the same stage with the same kind of error. -/
theorem C5_mutual_exclusion_amended :
    ∀ (model mnop : Option Str) (data_path : Str),
      ((truthy model = true ∧ truthy mnop = true)
        ∨ (model = none ∧ mnop = none)) →
      ∃ e, mainEvents model mnop data_path = [Event.configFail e]
        ∧ (e = ConfigError.modelRequired ∨ e = ConfigError.bothGiven) := by
  intro model mnop dp h
  rcases h with ⟨h1, h2⟩ | ⟨rfl, rfl⟩
  · refine ⟨ConfigError.bothGiven, ?_, Or.inr rfl⟩
    simp [mainEvents, mainConfig, h1, h2]
  · exact ⟨ConfigError.modelRequired,
      by simp [mainEvents, mainConfig, truthy], Or.inl rfl⟩

/-- Witness for the amended C5: both flags supplied non-empty. -/
theorem C5_witness :
    ((truthy (some ("a".toList)) = true ∧ truthy (some ("b".toList)) = true)
      ∨ (some ("a".toList) = none ∧ some ("b".toList) = none))
    ∧ ∃ e, mainEvents (some ("a".toList)) (some ("b".toList)) ("d".toList)
          = [Event.configFail e]
        ∧ (e = ConfigError.modelRequired ∨ e = ConfigError.bothGiven) :=
  ⟨Or.inl ⟨rfl, rfl⟩,
   C5_mutual_exclusion_amended (some ("a".toList)) (some ("b".toList))
     ("d".toList) (Or.inl ⟨rfl, rfl⟩)⟩

/-- Every key of the alias table differing from `k` makes the lookup
miss. -/
lemma lookup_eq_none {l : List (Str × Str)} {k : Str}
    (h : ∀ p ∈ l, p.1 ≠ k) : l.lookup k = none := by
  induction l with
  | nil => rfl
  | cons p t ih =>
    have hp : p.1 ≠ k := h p (List.mem_cons_self p t)
    have hbeq : (k == p.1) = false := by
      rw [beq_eq_false_iff_ne]
      exact fun he => hp he.symm
    obtain ⟨a, b⟩ := p
    simp only [List.lookup, hbeq]
    exact ih fun q hq => h q (List.mem_cons_of_mem _ hq)

/-- Claim C8: supplying `--model` with an alias outside the six keys of
the fixed table makes the run fail at configuration time — before any
model loading or file read — with an error naming the alias (the uncaught
`KeyError`, a non-zero exit whose message carries the alias). -/
theorem C8_unknown_alias_fails :
    ∀ (aliasStr data_path : Str),
      truthy (some aliasStr) = true →
      (∀ p ∈ MODEL_CHECKPOINTS, p.1 ≠ aliasStr) →
      mainEvents (some aliasStr) none data_path
        = [Event.configFail (ConfigError.unknownAlias aliasStr)] := by
  intro a dp ht hforall
  have hlk : MODEL_CHECKPOINTS.lookup a = none := lookup_eq_none hforall
  have ha : a ≠ [] := by
    simp [truthy] at ht
    exact ht
  simp [mainEvents, mainConfig, truthy, ha, hlk]

/-- Witness for C8: the alias `t5-base` is not in the table. -/
theorem C8_witness :
    (truthy (some ("t5-base".toList)) = true
      ∧ ∀ p ∈ MODEL_CHECKPOINTS, p.1 ≠ "t5-base".toList)
    ∧ mainEvents (some ("t5-base".toList)) none ("d.jsonl".toList)
        = [Event.configFail (ConfigError.unknownAlias ("t5-base".toList))] :=
  ⟨⟨rfl, by decide⟩,
   C8_unknown_alias_fails ("t5-base".toList) ("d.jsonl".toList) rfl (by decide)⟩

/-- Claim C7: for every configuration the resolver accepts, the one file
written is named `<model-label>.<dataset-basename>.predictions`, where the
dataset basename is the data path's base name with its extension removed;
the label is the alias itself when `--model` is used, and the explicit
identifier with every `'/'` replaced by `'-'` when `--model_name_or_path`
is used.  Concretely, alias `bart-xsum` resolves to the fixed checkpoint
`facebook/bart-large-xsum`, and with data path `data/xsum.jsonl` the
output filename is exactly `bart-xsum.xsum.predictions`. -/
theorem C7_output_filename :
    (∀ (model mnop : Option Str) (data_path ckpt label : Str),
      mainConfig model mnop = .ok (ckpt, label) →
      mainEvents model mnop data_path
        = [Event.modelLoad ckpt, Event.fileRead data_path,
           Event.fileWrite
             (label ++ ['.'] ++ dropExt (basename data_path)
               ++ ".predictions".toList)]
      ∧ (truthy model = true → label = model.getD [])
      ∧ (truthy model = false → label = (mnop.getD []).map slashDash))
    ∧ mainConfig (some ("bart-xsum".toList)) none
        = .ok ("facebook/bart-large-xsum".toList, "bart-xsum".toList)
    ∧ outputFilename ("bart-xsum".toList) ("data/xsum.jsonl".toList)
        = "bart-xsum.xsum.predictions".toList := by
  refine ⟨?_, rfl, rfl⟩
  intro model mnop dp ckpt label h
  refine ⟨by simp [mainEvents, h, outputFilename], ?_, ?_⟩
  · intro ht
    cases hm : truthy mnop
    · rcases hl : MODEL_CHECKPOINTS.lookup (model.getD []) with _ | ck
      · simp [mainConfig, ht, hm, hl] at h
      · simp [mainConfig, ht, hm, hl] at h
        exact h.2.symm
    · simp [mainConfig, ht, hm] at h
  · intro ht
    cases hm : truthy mnop
    · simp [mainConfig, ht, hm] at h
    · simp [mainConfig, ht, hm] at h
      exact h.2.symm

/-- Witness for C7 at the alias `bart-xsum`. -/
theorem C7_witness :
    mainEvents (some ("bart-xsum".toList)) none ("data/xsum.jsonl".toList)
        = [Event.modelLoad ("facebook/bart-large-xsum".toList),
           Event.fileRead ("data/xsum.jsonl".toList),
           Event.fileWrite
             (("bart-xsum".toList) ++ ['.']
               ++ dropExt (basename ("data/xsum.jsonl".toList))
               ++ ".predictions".toList)]
    ∧ (truthy (some ("bart-xsum".toList)) = true →
        ("bart-xsum".toList) = (some ("bart-xsum".toList)).getD []) := by
  have h := C7_output_filename.1 (some ("bart-xsum".toList)) none
    ("data/xsum.jsonl".toList) ("facebook/bart-large-xsum".toList)
    ("bart-xsum".toList) rfl
  exact ⟨h.1, h.2.1⟩

/-- Witness for C9 at a concrete two-element input. -/
theorem C9_witness :
    (postprocess_data ["a<n>b".toList, "cd".toList]).length
        = ["a<n>b".toList, "cd".toList].length
    ∧ (postprocess_data ["a<n>b".toList, "cd".toList]).get ⟨0, by decide⟩
        = replNl (["a<n>b".toList, "cd".toList].get ⟨0, by decide⟩)
    ∧ replNl ("cd".toList) = "cd".toList := by
  obtain ⟨h1, h2, h3⟩ :=
    C9_postprocess_elementwise_map ["a<n>b".toList, "cd".toList]
  refine ⟨h1, h2 0 (by decide) (by decide), h3 ("cd".toList) ?_⟩
  rintro ⟨u, v, hh⟩
  have := congrArg List.length hh
  simp at this
  omega

end Generation
